import Mathlib

/-!
Verification of the onion site checker (`src/onion_site_checker.py`).

The script is embedded shallowly:

* JSON values (and Python dicts/lists flowing through the program) are the
  inductive `JValue`; a Python dict is an association list of fields in
  insertion order, and Python floats that the program only stores but never
  computes with (response times) are modelled as rationals.
* The HTML page is modelled as the view BeautifulSoup exposes to the code:
  the element with id `link_list` (when present) together with its `<a href>`
  descendants, each carrying an `href` attribute value and its visible text.
* Network effects are oracles: the listing fetch is a function from page
  number to `Option Markup` (`none` is a fetch failure), and each probe of a
  candidate site consumes one `ProbeOutcome` from an oracle indexed by a
  running count of network probe calls.
* Clock readings (`datetime.now().isoformat()`, `response.elapsed`) are data
  carried by the oracles, never computed on.
* The `while pages_checked < max_pages` loop of `run_checker` is a
  fuel-indexed iteration of a step function `loop_iter`; exhausting the fuel
  before the guard fails models an interrupt or an unhandled exception
  stopping the loop early, after which (like the `finally:` block) one final
  save runs.
-/

/-- A JSON value; also the model of the Python dicts and lists the script
manipulates.  Object fields are kept in insertion order, as Python dicts do. -/
inductive JValue where
  | null : JValue
  | bool (b : Bool) : JValue
  | num (q : Rat) : JValue
  | str (s : String) : JValue
  | arr (elems : List JValue) : JValue
  | obj (fields : List (String × JValue)) : JValue

/-- Python dict read `d[key]` / `key in d`, on the association-list model:
the value at the first matching key, if any. -/
def lookupField : List (String × JValue) → String → Option JValue
  | [], _ => none
  | (k, v) :: rest, key => if k = key then some v else lookupField rest key

/-- Python dict write `d[key] = v`: replace the value at an existing key in
place, otherwise append the new field at the end (dict insertion order). -/
def setField : List (String × JValue) → String → JValue → List (String × JValue)
  | [], key, v => [(key, v)]
  | (k, w) :: rest, key, v =>
      if k = key then (key, v) :: rest else (k, w) :: setField rest key v

/-- Field access on a `JValue` that is an object; `none` otherwise. -/
def jsonField : JValue → String → Option JValue
  | .obj fields, key => lookupField fields key
  | _, _ => none

/-- `OnionSiteChecker.load_existing_sites`, given the parsed document `data`
(the branch after `json.load` succeeded; a missing file or a parse/IO failure
returns the empty list, which is the same value as the `else` branch here).
Mirrors the source: a dict containing the key `accessible_sites` returns that
field's raw value; a bare list is returned as is; anything else yields `[]`. -/
def load_existing_sites (data : JValue) : JValue :=
  match data with
  | .obj fields =>
      match lookupField fields "accessible_sites" with
      | some sites => sites
      | none => .arr []
  | .arr sites => .arr sites
  | _ => .arr []

/-- The document `OnionSiteChecker.save_sites` writes for the in-memory list
`accessible_sites`, with `now` the `datetime.now().isoformat()` reading. -/
def save_sites (accessible_sites : List JValue) (now : String) : JValue :=
  .obj [("last_updated", .str now),
        ("total_accessible_sites", .num (accessible_sites.length : Rat)),
        ("accessible_sites", .arr accessible_sites)]

/-- The in-memory list a run starts from: `self.accessible_sites =
self.load_existing_sites()`.  In every non-crashing execution the loaded value
is a list; a non-list value stored under `accessible_sites` would crash the
source later (iteration/`len`), so it is mapped to `[]` here and no claim
exercises that case. -/
def loaded_sites (data : JValue) : List JValue :=
  match load_existing_sites data with
  | .arr sites => sites
  | _ => []

/-- `p` is a prefix of `s` (char-list level; the built-in `String` operations
are opaque to the kernel, so the Python string operations are implemented
over `String.toList`). -/
def hasPrefixL : List Char → List Char → Bool
  | _, [] => true
  | [], _ :: _ => false
  | c :: s, d :: p => c == d && hasPrefixL s p

/-- Python `s.startswith(p)`. -/
def str_startswith (s p : String) : Bool :=
  hasPrefixL s.toList p.toList

/-- Python `s.endswith(p)`. -/
def str_endswith (s p : String) : Bool :=
  hasPrefixL s.toList.reverse p.toList.reverse

/-- `p` occurs as a contiguous substring of `s` (char-list level). -/
def containsL : List Char → List Char → Bool
  | [], p => p.isEmpty
  | c :: rest, p => hasPrefixL (c :: rest) p || containsL rest p

/-- Python `p in s` for strings. -/
def str_contains (s p : String) : Bool :=
  containsL s.toList p.toList

/-- Python `s.lstrip('/')`: remove leading `/` characters. -/
def lstrip_slashes (s : String) : String :=
  .mk (s.toList.dropWhile (· == '/'))

/-- Python `s.strip()`: remove leading and trailing whitespace. -/
def strip_ws (s : String) : String :=
  .mk (((s.toList.dropWhile Char.isWhitespace).reverse.dropWhile
          Char.isWhitespace).reverse)

/-- The characters after the first occurrence of `pat` in `s`, if any
(char-list level helper for the network-location split). -/
def afterFirstL : List Char → List Char → Option (List Char)
  | [], pat => if pat.isEmpty then some [] else none
  | c :: rest, pat =>
      if hasPrefixL (c :: rest) pat then some ((c :: rest).drop pat.length)
      else afterFirstL rest pat

/-- `urllib.parse.urlparse(url).netloc`, for the URL shapes this script feeds
it (strings beginning with an `http` scheme, or more generally without a
scheme-less leading `//`): the part between the first `://` and the next
`/`, `?` or `#`; empty when the string has no `://`. -/
def urlparse_netloc (url : String) : String :=
  match afterFirstL url.toList "://".toList with
  | none => ""
  | some rest => .mk (rest.takeWhile fun c => !(c == '/' || c == '?' || c == '#'))

/-- One `<a href=...>` element inside the `link_list` container, as
BeautifulSoup exposes it to the code: the `href` attribute value and the
visible text (`link.get_text()`). -/
structure AnchorTag where
  href : String
  text : String

/-- The parsed HTML page as seen through the library calls the extractor
makes: the element with id `link_list` when present (`soup.find(id=...)`),
with its `<a href>` descendants in document order. -/
structure Markup where
  link_list : Option (List AnchorTag)

/-- The per-link body of `OnionSiteChecker.extract_onion_sites`: keep hrefs
ending in `.onion` or containing `.onion/`; prefix `http://` (after stripping
leading slashes) when the href does not start with `http`; keep the entry only
when the parsed network location is nonempty and ends in `.onion`. -/
def candidate_of_anchor (a : AnchorTag) : Option JValue :=
  let href := a.href
  if str_endswith href ".onion" || str_contains href ".onion/" then
    let href := if str_startswith href "http" then href
                else "http://" ++ lstrip_slashes href
    let onion_domain := urlparse_netloc href
    if !onion_domain.toList.isEmpty && str_endswith onion_domain ".onion" then
      some (.obj [("domain", .str onion_domain), ("url", .str href),
                  ("text", .str (strip_ws a.text))])
    else none
  else none

/-- `OnionSiteChecker.extract_onion_sites`: empty when the `link_list`
container is absent, otherwise the kept candidates in document order. -/
def extract_onion_sites (m : Markup) : List JValue :=
  match m.link_list with
  | none => []
  | some links => links.filterMap candidate_of_anchor

/-- The outcome of one network probe (`self.session.get` inside
`test_onion_site_accessibility`), as the oracle reports it: an HTTP response
with its status code and the clock readings the code would store
(`datetime.now().isoformat()` and `response.elapsed.total_seconds()`), or one
of the caught exception classes. -/
inductive ProbeOutcome where
  | httpStatus (code : Nat) (tested_at : String) (response_time : Rat)
  | timeout
  | connectionError
  | otherError

/-- Read a string field of an entry dict (`site_info['url']`,
`site_info['domain']`).  The source raises `KeyError` on a missing key; every
entry the claims feed in carries the key with a string value, so the default
`""` branch is never reached there. -/
def getStrField (e : JValue) (key : String) : String :=
  match e with
  | .obj fields =>
      match lookupField fields key with
      | some (.str s) => s
      | _ => ""
  | _ => ""

/-- The address recorded in an entry dict: its `domain` field when that is a
string, `none` otherwise. -/
def entryDomain (e : JValue) : Option String :=
  match e with
  | .obj fields =>
      match lookupField fields "domain" with
      | some (.str s) => some s
      | _ => none
  | _ => none

/-- One comparison of the dedup scan, `existing_site['domain'] == domain`:
true exactly when the existing entry records the string `domain`.  (An
existing entry without a `domain` field would raise in the source; here it
simply never matches, and the theorems below only traverse entries that carry
the field.) -/
def domainMatches (existing : JValue) (domain : String) : Bool :=
  entryDomain existing == some domain

/-- Set one field of an entry dict (`site_info['status'] = ...`).  The source
would raise on a non-dict; the extractor only ever produces dicts. -/
def setEntryField (e : JValue) (key : String) (v : JValue) : JValue :=
  match e with
  | .obj fields => .obj (setField fields key v)
  | other => other

/-- `OnionSiteChecker.test_onion_site_accessibility` for one candidate
`site_info` against the accumulated list `accessible_sites`, with `outcome`
the oracle's answer for the network call should one happen.  Returns the
probed entry (the candidate with `status`, `tested_at` and `response_time`
added — the source mutates and returns `True`; the appended object is that
mutated dict) or `none`, paired with the number of network calls performed. -/
def test_onion_site_accessibility (outcome : ProbeOutcome)
    (accessible_sites : List JValue) (site_info : JValue) :
    Option JValue × Nat :=
  let domain := getStrField site_info "domain"
  if accessible_sites.any fun e => domainMatches e domain then
    (none, 0)
  else
    match outcome with
    | .httpStatus code t r =>
        if code = 200 then
          (some (setEntryField (setEntryField (setEntryField site_info
                    "status" (.str "accessible"))
                  "tested_at" (.str t))
                "response_time" (.num r)), 1)
        else (none, 1)
    | _ => (none, 1)

/-- A sleep the driver performs: the per-entry random delay
(`random.uniform(delay_range)`) or the between-pages delay
(`random.uniform(15, 30)`).  Durations are random and irrelevant to the
claims; only the events are recorded. -/
inductive SleepEvent where
  | entryDelay
  | pageDelay
deriving DecidableEq

/-- The mutable state of `OnionSiteChecker.run_checker`: the in-memory
accumulated list and the loop counters, together with an event log — the
entries list passed to each `save_sites` call in order, the sleeps performed,
and the number of network probe calls made (which indexes the probe oracle). -/
structure CheckerState where
  accessible_sites : List JValue
  page_number : Nat
  pages_checked : Nat
  sites_found : Nat
  sites_accessible : Nat
  probe_calls : Nat
  saves : List (List JValue)
  sleeps : List SleepEvent

/-- The body of `for site_info in onion_sites:` — probe one candidate with
the oracle's next outcome; on success append the probed entry, bump the
counter and save immediately; then sleep the per-entry delay regardless. -/
def process_site (probe : Nat → ProbeOutcome) (s : CheckerState)
    (site_info : JValue) : CheckerState :=
  let res := test_onion_site_accessibility (probe s.probe_calls)
      s.accessible_sites site_info
  let s := { s with probe_calls := s.probe_calls + res.2 }
  let s :=
    match res.1 with
    | some probed =>
        let sites := s.accessible_sites ++ [probed]
        { s with accessible_sites := sites,
                 sites_accessible := s.sites_accessible + 1,
                 saves := s.saves ++ [sites] }
    | none => s
  { s with sleeps := s.sleeps ++ [.entryDelay] }

/-- One iteration of the `while pages_checked < max_pages` loop body: fetch
the listing page (a failure only advances `page_number`), extract candidates,
probe each in listing order, then advance both counters and sleep the
between-pages delay unless this was the last page. -/
def loop_iter (fetch : Nat → Option Markup) (probe : Nat → ProbeOutcome)
    (max_pages : Nat) (s : CheckerState) : CheckerState :=
  match fetch s.page_number with
  | none => { s with page_number := s.page_number + 1 }
  | some html =>
      let onion_sites := extract_onion_sites html
      let s := { s with sites_found := s.sites_found + onion_sites.length }
      let s := onion_sites.foldl (process_site probe) s
      let s := { s with pages_checked := s.pages_checked + 1,
                        page_number := s.page_number + 1 }
      if s.pages_checked < max_pages then
        { s with sleeps := s.sleeps ++ [.pageDelay] }
      else s

/-- The `while pages_checked < max_pages` loop, iterated for at most `fuel`
iterations: fuel running out before the guard fails models an interrupt or an
unhandled exception stopping the loop early (both are caught outside it). -/
def run_loop (fetch : Nat → Option Markup) (probe : Nat → ProbeOutcome)
    (max_pages : Nat) : Nat → CheckerState → CheckerState
  | 0, s => s
  | fuel + 1, s =>
      if s.pages_checked < max_pages then
        run_loop fetch probe max_pages fuel (loop_iter fetch probe max_pages s)
      else s

/-- The state `run_checker` starts the loop from: the sites loaded at
construction time, the caller-supplied starting page, zeroed counters and an
empty event log. -/
def init_state (initial_sites : List JValue) (start_page : Nat) : CheckerState :=
  { accessible_sites := initial_sites, page_number := start_page,
    pages_checked := 0, sites_found := 0, sites_accessible := 0,
    probe_calls := 0, saves := [], sleeps := [] }

/-- `OnionSiteChecker.run_checker`: when the connectivity check fails the
method returns at once (before the `try`, so with no save); otherwise it runs
the loop — to the page bound, or cut short by interrupt/exception (the fuel),
— and the `finally:` block performs one last `save_sites` unconditionally. -/
def run_checker (tor_ok : Bool) (fetch : Nat → Option Markup)
    (probe : Nat → ProbeOutcome) (max_pages fuel : Nat)
    (s0 : CheckerState) : CheckerState :=
  if tor_ok then
    let s := run_loop fetch probe max_pages fuel s0
    { s with saves := s.saves ++ [s.accessible_sites] }
  else s0

/-- The crawl loop reaches the page bound within some number of iterations
(the loop guard eventually fails): the termination event claim C1 asserts for
every run passing the connectivity check. -/
def crawl_loop_reaches_bound (fetch : Nat → Option Markup)
    (probe : Nat → ProbeOutcome) (max_pages : Nat) (s0 : CheckerState) : Prop :=
  ∃ n : Nat, max_pages ≤ (run_loop fetch probe max_pages n s0).pages_checked

/-- Every snapshot the run has passed to a save has pairwise distinct
addresses (the property claim C2 asserts of every persisted snapshot). -/
def all_saves_distinct (s : CheckerState) : Prop :=
  ∀ ls ∈ s.saves, (ls.map entryDomain).Nodup

/-- The entry used by the C2 counterexample: a well-formed probed entry as it
would sit, twice, in a pre-existing output document. -/
def dup_entry : JValue :=
  .obj [("domain", .str "dup.onion"), ("url", .str "http://dup.onion"),
        ("text", .str "Dup")]

/-- Claim C3: the document written by `save_sites` has its
`total_accessible_sites` field equal to the length of its `accessible_sites`
field, for every in-memory accumulated list and every timestamp. -/
theorem save_totalCount_eq_length (sites : List JValue) (now : String) :
    jsonField (save_sites sites now) "total_accessible_sites"
        = some (.num (sites.length : Rat))
      ∧ jsonField (save_sites sites now) "accessible_sites" = some (.arr sites) := by
  constructor <;> rfl

/-- Claim C5: `load_existing_sites` after `save_sites` returns exactly the
saved entries list (hence the same addresses and statuses), and the legacy
bare-array document form also loads to the same entries list. -/
theorem save_load_roundtrip (sites : List JValue) (now : String) :
    load_existing_sites (save_sites sites now) = .arr sites
      ∧ load_existing_sites (.arr sites) = .arr sites := by
  constructor <;> rfl

/-- Claim C10: a document that is a JSON object with no `accessible_sites`
field — neither the object-with-metadata form nor the bare-array form — loads
as the empty set, although no parse or IO failure occurred. -/
theorem load_object_without_entries (fields : List (String × JValue))
    (h : lookupField fields "accessible_sites" = none) :
    load_existing_sites (.obj fields) = .arr [] := by
  simp [load_existing_sites, h]

/-- Witness for C10 at a concrete object document carrying only metadata. -/
theorem load_object_without_entries_witness :
    lookupField [("last_updated", JValue.str "2024-01-01T00:00:00")]
        "accessible_sites" = none
      ∧ load_existing_sites
          (.obj [("last_updated", JValue.str "2024-01-01T00:00:00")]) = .arr [] :=
  ⟨rfl, load_object_without_entries _ rfl⟩

/-- Claim C7: inside the `link_list` container, a hyperlink whose href is the
bare value `abc.onion` yields a candidate entry with address `abc.onion` and
URL `http://abc.onion`, while a hyperlink whose href is `notonion.com` yields
no entry — for any anchor texts. -/
theorem extract_bare_onion_and_non_onion (t u : String) :
    extract_onion_sites ⟨some [⟨"abc.onion", t⟩, ⟨"notonion.com", u⟩]⟩
      = [.obj [("domain", .str "abc.onion"), ("url", .str "http://abc.onion"),
               ("text", .str (strip_ws t))]] := by
  rfl

/-- Claim C6: when the candidate's address is already among the accumulated
entries, the probe returns null and performs zero network calls. -/
theorem probe_known_address_no_network (outcome : ProbeOutcome)
    (accessible_sites : List JValue) (site_info : JValue)
    (h : (accessible_sites.any fun e =>
            domainMatches e (getStrField site_info "domain")) = true) :
    test_onion_site_accessibility outcome accessible_sites site_info
      = (none, 0) := by
  simp [test_onion_site_accessibility, h]

/-- Witness for C6: a concrete candidate whose domain is already recorded. -/
theorem probe_known_address_no_network_witness :
    (([JValue.obj [("domain", JValue.str "a.onion")]].any fun e =>
        domainMatches e (getStrField
          (JValue.obj [("domain", JValue.str "a.onion"),
                       ("url", JValue.str "http://a.onion"),
                       ("text", JValue.str "A")]) "domain")) = true)
      ∧ test_onion_site_accessibility ProbeOutcome.timeout
          [JValue.obj [("domain", JValue.str "a.onion")]]
          (JValue.obj [("domain", JValue.str "a.onion"),
                       ("url", JValue.str "http://a.onion"),
                       ("text", JValue.str "A")]) = (none, 0) :=
  ⟨rfl, probe_known_address_no_network _ _ _ rfl⟩

/-- Writing an absent key appends the new field at the end of the dict. -/
theorem setField_append_of_absent (fields : List (String × JValue))
    (key : String) (v : JValue) (h : lookupField fields key = none) :
    setField fields key v = fields ++ [(key, v)] := by
  induction fields with
  | nil => rfl
  | cons kv rest ih =>
      obtain ⟨k, w⟩ := kv
      by_cases hk : k = key
      · simp [lookupField, hk] at h
      · simp only [lookupField, hk, if_false, if_neg hk] at h ⊢
        simp [setField, hk, ih h]

/-- Looking up a key other than the one just appended sees the old dict. -/
theorem lookupField_append_ne (fields : List (String × JValue))
    (k1 : String) (v1 : JValue) (key : String) (h : key ≠ k1) :
    lookupField (fields ++ [(k1, v1)]) key = lookupField fields key := by
  induction fields with
  | nil => simp only [List.nil_append, lookupField, if_neg (Ne.symm h)]
  | cons kv rest ih =>
      obtain ⟨k, w⟩ := kv
      by_cases hk : k = key
      · simp [lookupField, hk]
      · simp [lookupField, hk, ih]

/-- Claim C9: when the dedup scan finds no match and the probe returns
HTTP 200, the result preserves every field of the candidate (in particular
`domain`, `url` and `text`) unchanged and appends exactly the three fields
`status = accessible`, `tested_at` and `response_time`; one network call is
made. -/
theorem probe_success_adds_exactly_three_fields
    (fields : List (String × JValue)) (sites : List JValue)
    (t : String) (r : Rat)
    (hdedup : (sites.any fun e =>
        domainMatches e (getStrField (.obj fields) "domain")) = false)
    (hs : lookupField fields "status" = none)
    (ht : lookupField fields "tested_at" = none)
    (hr : lookupField fields "response_time" = none) :
    test_onion_site_accessibility (.httpStatus 200 t r) sites (.obj fields)
      = (some (.obj (fields ++
            [("status", .str "accessible"), ("tested_at", .str t),
             ("response_time", .num r)])), 1) := by
  have h1 : setField fields "status" (.str "accessible")
      = fields ++ [("status", JValue.str "accessible")] :=
    setField_append_of_absent _ _ _ hs
  have ht1 : lookupField (fields ++ [("status", JValue.str "accessible")])
      "tested_at" = none := by
    rw [lookupField_append_ne _ _ _ _ (by decide)]; exact ht
  have h2 : setField (fields ++ [("status", JValue.str "accessible")])
      "tested_at" (.str t)
      = fields ++ [("status", JValue.str "accessible"),
                   ("tested_at", JValue.str t)] := by
    rw [setField_append_of_absent _ _ _ ht1, List.append_assoc]; rfl
  have hr1 : lookupField (fields ++ [("status", JValue.str "accessible"),
      ("tested_at", JValue.str t)]) "response_time" = none := by
    have hsplit : fields ++ [("status", JValue.str "accessible"),
          ("tested_at", JValue.str t)]
        = (fields ++ [("status", JValue.str "accessible")]) ++
          [("tested_at", JValue.str t)] := by simp
    rw [hsplit, lookupField_append_ne _ _ _ _ (by decide),
        lookupField_append_ne _ _ _ _ (by decide)]
    exact hr
  have h3 : setField (fields ++ [("status", JValue.str "accessible"),
      ("tested_at", JValue.str t)]) "response_time" (.num r)
      = fields ++ [("status", JValue.str "accessible"),
                   ("tested_at", JValue.str t),
                   ("response_time", JValue.num r)] := by
    rw [setField_append_of_absent _ _ _ hr1, List.append_assoc]; rfl
  simp only [test_onion_site_accessibility, hdedup, Bool.false_eq_true,
    if_false, setEntryField, h1, h2, h3]
  simp

/-- Witness for C9 at a concrete candidate, empty accumulated list, HTTP 200. -/
theorem probe_success_adds_exactly_three_fields_witness :
    (([] : List JValue).any fun e =>
        domainMatches e (getStrField
          (.obj [("domain", JValue.str "b.onion"),
                 ("url", JValue.str "http://b.onion"),
                 ("text", JValue.str "B")]) "domain")) = false
      ∧ lookupField [("domain", JValue.str "b.onion"),
           ("url", JValue.str "http://b.onion"),
           ("text", JValue.str "B")] "status" = none
      ∧ test_onion_site_accessibility
          (.httpStatus 200 "2024-01-01T00:00:00" 2) []
          (.obj [("domain", JValue.str "b.onion"),
                 ("url", JValue.str "http://b.onion"),
                 ("text", JValue.str "B")])
        = (some (.obj [("domain", JValue.str "b.onion"),
                       ("url", JValue.str "http://b.onion"),
                       ("text", JValue.str "B"),
                       ("status", JValue.str "accessible"),
                       ("tested_at", JValue.str "2024-01-01T00:00:00"),
                       ("response_time", JValue.num 2)]), 1) :=
  ⟨rfl, rfl,
    probe_success_adds_exactly_three_fields _ _ _ _ rfl rfl rfl rfl⟩

/-- Claim C8: when the fetch of the current page fails, the loop body only
advances the page counter to the next page — no entries are recorded, nothing
is saved, no sleep happens, and `pages_checked` does not move. -/
theorem fetch_failure_skips_page (fetch : Nat → Option Markup)
    (probe : Nat → ProbeOutcome) (max_pages : Nat) (s : CheckerState)
    (h : fetch s.page_number = none) :
    loop_iter fetch probe max_pages s
      = { s with page_number := s.page_number + 1 } := by
  simp [loop_iter, h]

/-- Witness for C8: a concrete state whose current page fails to fetch. -/
theorem fetch_failure_skips_page_witness :
    ((fun _ => none) : Nat → Option Markup) (init_state [] 7).page_number = none
      ∧ loop_iter (fun _ => none) (fun _ => ProbeOutcome.timeout) 10
          (init_state [] 7)
        = { init_state [] 7 with page_number := (init_state [] 7).page_number + 1 } :=
  ⟨rfl, fetch_failure_skips_page _ _ _ _ rfl⟩

/-- Claim C4: every exit of a run that passed the connectivity check — the
page bound reached (fuel at least the needed iterations), or the loop cut
short at any point by interrupt or unhandled exception (any smaller fuel) —
ends with one final unconditional save of the in-memory set: the persisted
log is the loop's saves followed by exactly the final in-memory list. -/
theorem all_exits_end_with_final_save (fetch : Nat → Option Markup)
    (probe : Nat → ProbeOutcome) (max_pages fuel : Nat) (s0 : CheckerState) :
    (run_checker true fetch probe max_pages fuel s0).saves
      = (run_loop fetch probe max_pages fuel s0).saves
          ++ [(run_loop fetch probe max_pages fuel s0).accessible_sites]
      ∧ (run_checker true fetch probe max_pages fuel s0).accessible_sites
          = (run_loop fetch probe max_pages fuel s0).accessible_sites := by
  constructor <;> rfl

/-- Helper: the fetch-failure branch of the loop body (shared shape with the
C8 claim theorem). -/
theorem loop_iter_fetch_none (fetch : Nat → Option Markup)
    (probe : Nat → ProbeOutcome) (max_pages : Nat) (s : CheckerState)
    (h : fetch s.page_number = none) :
    loop_iter fetch probe max_pages s
      = { s with page_number := s.page_number + 1 } := by
  simp [loop_iter, h]

/-- Probing one candidate never touches the page counter. -/
theorem process_site_pages_checked (probe : Nat → ProbeOutcome)
    (s : CheckerState) (site : JValue) :
    (process_site probe s site).pages_checked = s.pages_checked := by
  rcases hres : (test_onion_site_accessibility (probe s.probe_calls)
      s.accessible_sites site).1 with _ | probed <;>
    simp [process_site, hres]

/-- Probing a page's candidates never touches the page counter. -/
theorem foldl_process_site_pages_checked (probe : Nat → ProbeOutcome)
    (l : List JValue) : ∀ s : CheckerState,
    (l.foldl (process_site probe) s).pages_checked = s.pages_checked := by
  induction l with
  | nil => intro s; rfl
  | cons x xs ih =>
      intro s
      rw [List.foldl_cons, ih, process_site_pages_checked]

/-- A loop iteration whose fetch succeeds advances `pages_checked` by one. -/
theorem loop_iter_pages_checked_succ (fetch : Nat → Option Markup)
    (probe : Nat → ProbeOutcome) (max_pages : Nat) (s : CheckerState)
    (h : (fetch s.page_number).isSome) :
    (loop_iter fetch probe max_pages s).pages_checked = s.pages_checked + 1 := by
  obtain ⟨m, hm⟩ := Option.isSome_iff_exists.mp h
  simp only [loop_iter, hm]
  split <;> simp [foldl_process_site_pages_checked]

/-- Once the guard is false, any remaining fuel is unused. -/
theorem run_loop_guard_false (fetch : Nat → Option Markup)
    (probe : Nat → ProbeOutcome) (max_pages n : Nat) (s : CheckerState)
    (h : ¬ s.pages_checked < max_pages) :
    run_loop fetch probe max_pages n s = s := by
  cases n with
  | zero => rfl
  | succ n => simp [run_loop, h]

/-- When every fetch succeeds, `pages_checked` after `n` iterations is
exactly `min (pages_checked + n) max_pages`. -/
theorem run_loop_pages_checked_of_fetch_ok (fetch : Nat → Option Markup)
    (probe : Nat → ProbeOutcome) (max_pages : Nat)
    (hf : ∀ p, (fetch p).isSome) : ∀ (n : Nat) (s : CheckerState),
    s.pages_checked ≤ max_pages →
    (run_loop fetch probe max_pages n s).pages_checked
      = min (s.pages_checked + n) max_pages := by
  intro n
  induction n with
  | zero =>
      intro s hs
      simpa [run_loop] using (Nat.min_eq_left hs).symm
  | succ n ih =>
      intro s hs
      by_cases hlt : s.pages_checked < max_pages
      · simp only [run_loop, if_pos hlt]
        rw [ih _ (by rw [loop_iter_pages_checked_succ _ _ _ _ (hf _)]; omega),
            loop_iter_pages_checked_succ _ _ _ _ (hf _)]
        omega
      · simp only [run_loop, if_neg hlt]
        omega

/-- One more unit of fuel after the guard has gone false changes nothing. -/
theorem run_loop_succ_of_done (fetch : Nat → Option Markup)
    (probe : Nat → ProbeOutcome) (max_pages : Nat) : ∀ (n : Nat) (s : CheckerState),
    ¬ (run_loop fetch probe max_pages n s).pages_checked < max_pages →
    run_loop fetch probe max_pages (n + 1) s
      = run_loop fetch probe max_pages n s := by
  intro n
  induction n with
  | zero =>
      intro s h
      simp only [run_loop] at h ⊢
      rw [if_neg h]
  | succ n ih =>
      intro s h
      by_cases hlt : s.pages_checked < max_pages
      · have hgoal : run_loop fetch probe max_pages (n + 1 + 1) s
            = run_loop fetch probe max_pages (n + 1)
                (loop_iter fetch probe max_pages s) := by
          simp only [run_loop, if_pos hlt]
        rw [hgoal]
        have hs : run_loop fetch probe max_pages (n + 1) s
            = run_loop fetch probe max_pages n
                (loop_iter fetch probe max_pages s) := by
          simp only [run_loop, if_pos hlt]
        rw [hs] at h ⊢
        exact ih _ h
      · rw [run_loop_guard_false _ _ _ _ _ hlt,
            run_loop_guard_false _ _ _ _ _ hlt]

/-- Counterexample to claim C1 as stated: under an oracle whose page fetches
all fail (a run that did pass the connectivity check), `pages_checked` is
never incremented — `continue` skips the increment — so with a page bound of
`1` the loop guard holds after every number of iterations: the `Running` loop
never terminates, and in particular is not bounded by the page count. -/
theorem loop_unbounded_under_fetch_failures :
    ¬ crawl_loop_reaches_bound (fun _ => none) (fun _ => ProbeOutcome.timeout)
        1 (init_state [] 1) := by
  rintro ⟨n, hn⟩
  have hfix : ∀ (m : Nat) (s : CheckerState),
      (run_loop (fun _ => none) (fun _ => ProbeOutcome.timeout) 1 m s).pages_checked
        = s.pages_checked := by
    intro m
    induction m with
    | zero => intro s; rfl
    | succ m ih =>
        intro s
        by_cases h : s.pages_checked < 1
        · simp only [run_loop, if_pos h]
          rw [ih, loop_iter_fetch_none _ _ _ _ rfl]
        · simp only [run_loop, if_neg h]
  rw [hfix] at hn
  simp [init_state] at hn

/-- Claim C1 (amended): the loop performs only iterations whose fetch
succeeded up to the page bound — provided every page fetch succeeds, the loop
terminates after exactly `max_pages` iterations (further fuel is unused and
the guard is false there); a run whose fetches keep failing loops forever. -/
theorem loop_bounded_when_fetches_succeed (fetch : Nat → Option Markup)
    (probe : Nat → ProbeOutcome) (max_pages n : Nat) (init : List JValue)
    (start : Nat) (hf : ∀ p, (fetch p).isSome) (hn : max_pages ≤ n) :
    run_loop fetch probe max_pages n (init_state init start)
        = run_loop fetch probe max_pages max_pages (init_state init start)
      ∧ (run_loop fetch probe max_pages max_pages
          (init_state init start)).pages_checked = max_pages := by
  have hdone : ∀ m : Nat, max_pages ≤ m →
      ¬ (run_loop fetch probe max_pages m
          (init_state init start)).pages_checked < max_pages := by
    intro m hm
    rw [run_loop_pages_checked_of_fetch_ok fetch probe max_pages hf m _
        (Nat.zero_le _)]
    simp only [init_state]
    omega
  constructor
  · induction n, hn using Nat.le_induction with
    | base => rfl
    | succ n hmn ih =>
        rw [run_loop_succ_of_done _ _ _ _ _ (hdone n hmn), ih]
  · rw [run_loop_pages_checked_of_fetch_ok fetch probe max_pages hf _ _
        (Nat.zero_le _)]
    simp only [init_state]
    omega

/-- Witness for the amended C1: two pages, all fetches succeed (each page has
an empty listing container), three units of fuel — the third is unused and
the bound is reached. -/
theorem loop_bounded_when_fetches_succeed_witness :
    (∀ p : Nat, ((fun _ => some ⟨none⟩ : Nat → Option Markup) p).isSome)
      ∧ (2 : Nat) ≤ 3
      ∧ (run_loop (fun _ => some ⟨none⟩) (fun _ => ProbeOutcome.timeout) 2 3
            (init_state [] 5)
          = run_loop (fun _ => some ⟨none⟩) (fun _ => ProbeOutcome.timeout) 2 2
            (init_state [] 5)
        ∧ (run_loop (fun _ => some ⟨none⟩) (fun _ => ProbeOutcome.timeout) 2 2
            (init_state [] 5)).pages_checked = 2) :=
  ⟨fun _ => rfl, by decide,
    loop_bounded_when_fetches_succeed _ _ 2 3 [] 5 (fun _ => rfl) (by decide)⟩

/-- Updating one key leaves every other key's lookup unchanged. -/
theorem lookupField_setField_ne (fields : List (String × JValue))
    (key k : String) (v : JValue) (h : key ≠ k) :
    lookupField (setField fields k v) key = lookupField fields key := by
  induction fields with
  | nil => simp [setField, lookupField, Ne.symm h]
  | cons kv rest ih =>
      obtain ⟨k', w⟩ := kv
      by_cases hk : k' = k
      · subst hk
        simp [setField, lookupField, Ne.symm h]
      · simp [setField, lookupField, hk, ih]

/-- Setting a non-`domain` field of an entry does not change its address. -/
theorem entryDomain_setEntryField_ne (e : JValue) (k : String) (v : JValue)
    (h : "domain" ≠ k) :
    entryDomain (setEntryField e k v) = entryDomain e := by
  cases e with
  | obj fields =>
      simp only [setEntryField, entryDomain,
        lookupField_setField_ne fields "domain" k v h]
  | null => rfl
  | bool b => rfl
  | num q => rfl
  | str s => rfl
  | arr xs => rfl

/-- An entry whose address is `d` yields `d` from the `domain` field read. -/
theorem getStrField_domain_eq (site : JValue) (d : String)
    (h : entryDomain site = some d) :
    getStrField site "domain" = d := by
  cases site with
  | obj fields =>
      simp only [entryDomain] at h
      simp only [getStrField]
      rcases hl : lookupField fields "domain" with _ | v
      · rw [hl] at h; simp at h
      · rw [hl] at h
        cases v <;> simp_all
  | null => simp [entryDomain] at h
  | bool b => simp [entryDomain] at h
  | num q => simp [entryDomain] at h
  | str s => simp [entryDomain] at h
  | arr xs => simp [entryDomain] at h

/-- When the probe returns an entry, the dedup scan found no match and the
returned entry records the same address as the candidate. -/
theorem test_some_spec (outcome : ProbeOutcome) (sites : List JValue)
    (site probed : JValue)
    (h : (test_onion_site_accessibility outcome sites site).1 = some probed) :
    (sites.any fun e => domainMatches e (getStrField site "domain")) = false
      ∧ entryDomain probed = entryDomain site := by
  by_cases hded : (sites.any fun e =>
      domainMatches e (getStrField site "domain")) = true
  · simp [test_onion_site_accessibility, hded] at h
  · have hded' : (sites.any fun e =>
        domainMatches e (getStrField site "domain")) = false := by
      simpa using hded
    refine ⟨hded', ?_⟩
    rcases outcome with ⟨code, t, r⟩ | _ | _ | _
    · by_cases hc : code = 200
      · subst hc
        have h' : setEntryField (setEntryField (setEntryField site
              "status" (.str "accessible")) "tested_at" (.str t))
              "response_time" (.num r) = probed := by
          simpa [test_onion_site_accessibility, hded'] using h
        subst h'
        rw [entryDomain_setEntryField_ne _ _ _ (by decide),
            entryDomain_setEntryField_ne _ _ _ (by decide),
            entryDomain_setEntryField_ne _ _ _ (by decide)]
      · simp [test_onion_site_accessibility, hded', hc] at h
    · simp [test_onion_site_accessibility, hded'] at h
    · simp [test_onion_site_accessibility, hded'] at h
    · simp [test_onion_site_accessibility, hded'] at h

/-- A false dedup scan means no accumulated entry records the address. -/
theorem dedup_not_mem (sites : List JValue) (d : String)
    (hded : (sites.any fun e => domainMatches e d) = false) :
    ∀ e ∈ sites, entryDomain e ≠ some d := by
  intro e he hcontra
  rw [List.any_eq_false] at hded
  exact hded e he (by simp [domainMatches, hcontra])

/-- Every candidate the extractor emits records an address. -/
theorem extract_entry_has_domain (m : Markup) :
    ∀ site ∈ extract_onion_sites m, ∃ d, entryDomain site = some d := by
  intro site hs
  obtain ⟨ll⟩ := m
  cases ll with
  | none => simp [extract_onion_sites] at hs
  | some links =>
      simp only [extract_onion_sites] at hs
      obtain ⟨a, _, hc⟩ := List.mem_filterMap.mp hs
      simp only [candidate_of_anchor] at hc
      split at hc
      · split at hc
        · split at hc
          · rw [Option.some_inj] at hc
            subst hc
            exact ⟨_, rfl⟩
          · exact absurd hc (by simp)
        · split at hc
          · rw [Option.some_inj] at hc
            subst hc
            exact ⟨_, rfl⟩
          · exact absurd hc (by simp)
      · exact absurd hc (by simp)

/-- Probing one candidate that records an address preserves both halves of
the distinct-address invariant: the accumulated list, and every snapshot that
has been passed to a save. -/
theorem process_site_distinct (probe : Nat → ProbeOutcome) (s : CheckerState)
    (site : JValue) (hwf : ∃ d, entryDomain site = some d)
    (h1 : (s.accessible_sites.map entryDomain).Nodup)
    (h2 : ∀ ls ∈ s.saves, (ls.map entryDomain).Nodup) :
    ((process_site probe s site).accessible_sites.map entryDomain).Nodup
      ∧ ∀ ls ∈ (process_site probe s site).saves,
          (ls.map entryDomain).Nodup := by
  obtain ⟨d, hd⟩ := hwf
  rcases hres : (test_onion_site_accessibility (probe s.probe_calls)
      s.accessible_sites site).1 with _ | probed
  · constructor
    · simpa [process_site, hres] using h1
    · intro ls hls
      exact h2 ls (by simpa [process_site, hres] using hls)
  · obtain ⟨hded, hdom⟩ := test_some_spec _ _ _ _ hres
    have hprobed : entryDomain probed = some d := by rw [hdom, hd]
    have hnotmem : some d ∉ s.accessible_sites.map entryDomain := by
      intro hmem
      obtain ⟨e, he, hedom⟩ := List.mem_map.mp hmem
      exact dedup_not_mem _ _
        (by rwa [getStrField_domain_eq site d hd] at hded) e he hedom
    have hnew : ((s.accessible_sites ++ [probed]).map entryDomain).Nodup := by
      rw [List.map_append, List.nodup_append]
      refine ⟨h1, by simp, ?_⟩
      intro a ha hb
      simp only [List.map_cons, List.map_nil, List.mem_singleton, hprobed] at hb
      rw [hb] at ha
      exact hnotmem ha
    constructor
    · simpa [process_site, hres] using hnew
    · intro ls hls
      have hls' : ls ∈ s.saves ++ [s.accessible_sites ++ [probed]] := by
        simpa [process_site, hres] using hls
      rcases List.mem_append.mp hls' with hmem | hmem
      · exact h2 ls hmem
      · rw [List.mem_singleton.mp hmem]
        exact hnew

/-- Probing a page's candidates (all of which record addresses) preserves the
distinct-address invariant. -/
theorem foldl_process_site_distinct (probe : Nat → ProbeOutcome)
    (l : List JValue) : ∀ s : CheckerState,
    (∀ site ∈ l, ∃ d, entryDomain site = some d) →
    (s.accessible_sites.map entryDomain).Nodup →
    (∀ ls ∈ s.saves, (ls.map entryDomain).Nodup) →
    ((l.foldl (process_site probe) s).accessible_sites.map entryDomain).Nodup
      ∧ ∀ ls ∈ (l.foldl (process_site probe) s).saves,
          (ls.map entryDomain).Nodup := by
  induction l with
  | nil => intro s _ h1 h2; exact ⟨h1, h2⟩
  | cons x xs ih =>
      intro s hwf h1 h2
      rw [List.foldl_cons]
      obtain ⟨h1', h2'⟩ := process_site_distinct probe s x (hwf x (by simp)) h1 h2
      exact ih _ (fun site hsite => hwf site (by simp [hsite])) h1' h2'

/-- One loop iteration preserves the distinct-address invariant. -/
theorem loop_iter_distinct (fetch : Nat → Option Markup)
    (probe : Nat → ProbeOutcome) (max_pages : Nat) (s : CheckerState)
    (h1 : (s.accessible_sites.map entryDomain).Nodup)
    (h2 : ∀ ls ∈ s.saves, (ls.map entryDomain).Nodup) :
    ((loop_iter fetch probe max_pages s).accessible_sites.map entryDomain).Nodup
      ∧ ∀ ls ∈ (loop_iter fetch probe max_pages s).saves,
          (ls.map entryDomain).Nodup := by
  rcases hm : fetch s.page_number with _ | html
  · constructor
    · simpa [loop_iter, hm] using h1
    · intro ls hls
      exact h2 ls (by simpa [loop_iter, hm] using hls)
  · have hfold := foldl_process_site_distinct probe (extract_onion_sites html)
      { s with sites_found := s.sites_found + (extract_onion_sites html).length }
      (extract_entry_has_domain html) h1 h2
    simp only [loop_iter, hm]
    split
    · exact ⟨hfold.1, fun ls hls => hfold.2 ls (by simpa using hls)⟩
    · exact ⟨hfold.1, fun ls hls => hfold.2 ls (by simpa using hls)⟩

/-- Counterexample to claim C2 as stated: the loader performs no
deduplication, so a run over a pre-existing document whose entries list
already holds the same address twice reaches its first persisted snapshot
(the unconditional final save of a run that passed the connectivity check
and was interrupted at once) with that address appearing twice. -/
theorem duplicate_addresses_reach_save :
    loaded_sites (.arr [dup_entry, dup_entry]) = [dup_entry, dup_entry]
      ∧ (run_checker true (fun _ => none) (fun _ => ProbeOutcome.timeout) 1 0
          (init_state (loaded_sites (.arr [dup_entry, dup_entry])) 1)).saves
        = [[dup_entry, dup_entry]]
      ∧ ¬ all_saves_distinct
          (run_checker true (fun _ => none) (fun _ => ProbeOutcome.timeout) 1 0
            (init_state (loaded_sites (.arr [dup_entry, dup_entry])) 1)) := by
  refine ⟨rfl, rfl, fun h => ?_⟩
  have hmem : [dup_entry, dup_entry] ∈
      (run_checker true (fun _ => none) (fun _ => ProbeOutcome.timeout) 1 0
        (init_state (loaded_sites (.arr [dup_entry, dup_entry])) 1)).saves :=
    List.mem_singleton_self _
  have hdup := h _ hmem
  revert hdup
  decide

/-- Claim C2 (amended): provided the entries of the loaded document have
pairwise distinct addresses, every snapshot the run passes to a save — after
each newly accessible entry and at the final flush — contains each address at
most once, the prober's linear dedup scan refusing every address already in
the accumulated list. -/
theorem saves_distinct_of_loaded_distinct (tor_ok : Bool)
    (fetch : Nat → Option Markup) (probe : Nat → ProbeOutcome)
    (max_pages fuel : Nat) (init : List JValue) (start : Nat)
    (hinit : (init.map entryDomain).Nodup) :
    all_saves_distinct
      (run_checker tor_ok fetch probe max_pages fuel (init_state init start)) := by
  have hloop : ∀ (n : Nat) (s : CheckerState),
      (s.accessible_sites.map entryDomain).Nodup →
      (∀ ls ∈ s.saves, (ls.map entryDomain).Nodup) →
      ((run_loop fetch probe max_pages n s).accessible_sites.map
          entryDomain).Nodup
        ∧ ∀ ls ∈ (run_loop fetch probe max_pages n s).saves,
            (ls.map entryDomain).Nodup := by
    intro n
    induction n with
    | zero => intro s hh1 hh2; exact ⟨hh1, hh2⟩
    | succ n ih =>
        intro s hh1 hh2
        by_cases hlt : s.pages_checked < max_pages
        · simp only [run_loop, if_pos hlt]
          obtain ⟨hh1', hh2'⟩ := loop_iter_distinct fetch probe max_pages s hh1 hh2
          exact ih _ hh1' hh2'
        · simp only [run_loop, if_neg hlt]
          exact ⟨hh1, hh2⟩
  cases tor_ok with
  | false =>
      intro ls hls
      simp [run_checker, init_state] at hls
  | true =>
      obtain ⟨hh1, hh2⟩ := hloop fuel (init_state init start)
        (by simpa [init_state] using hinit)
        (by intro ls hls; simp [init_state] at hls)
      intro ls hls
      have hls' : ls ∈
          (run_loop fetch probe max_pages fuel (init_state init start)).saves
            ++ [(run_loop fetch probe max_pages fuel
                  (init_state init start)).accessible_sites] := hls
      rcases List.mem_append.mp hls' with hmem | hmem
      · exact hh2 ls hmem
      · rw [List.mem_singleton.mp hmem]
        exact hh1

/-- Witness for the amended C2: an empty loaded document, a failing fetch,
one page and one unit of fuel. -/
theorem saves_distinct_of_loaded_distinct_witness :
    ((([] : List JValue)).map entryDomain).Nodup
      ∧ all_saves_distinct
          (run_checker true (fun _ => none) (fun _ => ProbeOutcome.timeout) 1 1
            (init_state [] 3)) :=
  ⟨by decide,
    saves_distinct_of_loaded_distinct true _ _ 1 1 [] 3 (by decide)⟩
